import Mathlib

/-!
Formal model of the parametric-curve evaluation code of this repository:
a quadratic B-spline (knot-vector generation, Cox-de Boor basis evaluation,
least-squares fitting constructor, curve evaluation), a closed subdivision
curve (Lane-Riesenfeld refinement, closure enforcement, piecewise-linear
evaluation), and an analytic torus knot (position, velocity, acceleration).

Scalars of the C++ code (float) are modelled as rationals, except for the
torus knot whose transcendental formulas are modelled over the reals.
3D vectors are triples of rationals (reals for the torus knot).
-/

/-- 3D vector of rationals, modelling GMlib::Vector of float length 3. -/
abbrev Vec3 : Type := ℚ × ℚ × ℚ

/-- Reading entry i of a vector of scalars, with the value 0 for an index
beyond the end (in-bounds uses are established separately where needed). -/
def kv (knots : List ℚ) (i : ℕ) : ℚ := knots.getD i 0

/-- Reading entry i of a vector of 3D points, default 0. -/
def pt (l : List Vec3) (i : ℕ) : Vec3 := l.getD i 0

/-- Value written at index i of the knot vector by MyB_spline::generateKnotVector
for n control points, degree 2, m = n + 3 knots: the first loop writes 0 at
indices 0..2, the second loop writes i - 2 at indices 3 <= i < m - 3 = n, the
third loop writes maxValue = m - 2*3 + 1 = n - 2 at indices n <= i < n + 3
(a later loop overwrites an earlier one, which only matters for n < 3). -/
def knotVal (n i : ℕ) : ℚ :=
  if n ≤ i then (n : ℚ) - 2
  else if 3 ≤ i then (i : ℚ) - 2
  else 0

/-- MyB_spline::generateKnotVector: the knot vector for n control points,
degree k = 2, length m = n + k + 1. -/
def generateKnotVector (n : ℕ) : List ℚ :=
  (List.range (n + 3)).map (knotVal n)

/-- MyB_spline::evaluateBasis: the Cox-de Boor recursion.  Degree 0 tests
membership in the half-open span, with the special case accepting the final
knot value at the last control-point index (the code compares the int i with
_controlPoints.getDim() - 1, hence the integer cast).  Degree d + 1 forms
term1 + term2, replacing a term whose denominator is exactly 0 by 0. -/
def evaluateBasis (knots : List ℚ) (cp : ℕ) : ℕ → ℕ → ℚ → ℚ
  | i, 0, t =>
      if (kv knots i ≤ t ∧ t < kv knots (i + 1)) ∨
         (t = kv knots (knots.length - 1) ∧ (i : ℤ) = (cp : ℤ) - 1) then 1 else 0
  | i, d + 1, t =>
      (if kv knots (i + (d + 1)) - kv knots i ≠ 0 then
          (t - kv knots i) / (kv knots (i + (d + 1)) - kv knots i) *
            evaluateBasis knots cp i d t
        else 0) +
      (if kv knots (i + (d + 1) + 1) - kv knots (i + 1) ≠ 0 then
          (kv knots (i + (d + 1) + 1) - t) / (kv knots (i + (d + 1) + 1) - kv knots (i + 1)) *
            evaluateBasis knots cp (i + 1) d t
        else 0)

/-- MyB_spline::eval: the loop accumulates basisVal * controlPoint into the
position slot _p[0], starting from the zero vector; the higher derivative
slots of the result (sized d + 1) are never written, hence zero vectors. -/
def evalMyBSpline (knots : List ℚ) (cps : List Vec3) (t : ℚ) (d : ℕ) : List Vec3 :=
  ((List.range cps.length).foldl
      (fun acc i => acc + evaluateBasis knots cps.length i 2 t • pt cps i) 0)
    :: List.replicate d 0

-- The generated knot value is the integer i - 2 clamped to [0, n - 2], for n >= 3.
theorem knotVal_eq_clamp {n : ℕ} (hn : 3 ≤ n) (i : ℕ) :
    knotVal n i = max 0 (min ((i : ℚ) - 2) ((n : ℚ) - 2)) := by
  have hnq : (3 : ℚ) ≤ (n : ℚ) := by exact_mod_cast hn
  unfold knotVal
  split_ifs with h1 h2
  · have hiq : (n : ℚ) ≤ (i : ℚ) := by exact_mod_cast h1
    rw [min_eq_right (by linarith), max_eq_right (by linarith)]
  · have hiq : (i : ℚ) ≤ (n : ℚ) := by exact_mod_cast (le_of_not_le h1)
    have h3q : (3 : ℚ) ≤ (i : ℚ) := by exact_mod_cast h2
    rw [min_eq_left (by linarith), max_eq_right (by linarith)]
  · have hiq : (i : ℚ) ≤ 2 := by exact_mod_cast Nat.le_of_lt_succ (lt_of_not_le h2)
    rw [min_eq_left (by linarith), max_eq_left (by linarith)]

-- Monotonicity of the generated knot values, for n >= 3.
theorem knotVal_mono {n : ℕ} (hn : 3 ≤ n) {i j : ℕ} (hij : i ≤ j) :
    knotVal n i ≤ knotVal n j := by
  rw [knotVal_eq_clamp hn i, knotVal_eq_clamp hn j]
  have hij' : (i : ℚ) ≤ (j : ℚ) := by exact_mod_cast hij
  exact max_le_max le_rfl (min_le_min (by linarith) le_rfl)

/-- Knot access within range agrees with knotVal. -/
theorem kv_generateKnotVector (n i : ℕ) (h : i < n + 3) :
    kv (generateKnotVector n) i = knotVal n i := by
  simp [kv, generateKnotVector, List.getD, List.getElem?_map, List.getElem?_range, h]

/-- Knot access beyond the generated vector yields the default 0. -/
theorem kv_generateKnotVector_oob (n i : ℕ) (h : n + 3 ≤ i) :
    kv (generateKnotVector n) i = 0 := by
  have : (generateKnotVector n).length ≤ i := by
    simpa [generateKnotVector] using h
  simp [kv, List.getD, List.getElem?_eq_none this]

/-- C3: for n >= 3 control points (degree 2, m = n + 3 knots),
generateKnotVector returns a non-decreasing knot vector of length n + 3 whose
indices 0..2 hold 0, whose indices 3..n-1 hold i - 2 (consecutive integers
from 1), and whose last three indices all hold the maximum middle value
n - 2 = m - 2*(2+1) + 1. -/
theorem generateKnotVector_clamped (n : ℕ) (hn : 3 ≤ n) :
    (generateKnotVector n).length = n + 3 ∧
    (∀ i j, i ≤ j → j < n + 3 →
      kv (generateKnotVector n) i ≤ kv (generateKnotVector n) j) ∧
    (∀ i, i ≤ 2 → kv (generateKnotVector n) i = 0) ∧
    (∀ i, 3 ≤ i → i ≤ n - 1 → kv (generateKnotVector n) i = (i : ℚ) - 2) ∧
    (∀ i, n ≤ i → i < n + 3 → kv (generateKnotVector n) i = (n : ℚ) - 2) := by
  refine ⟨by simp [generateKnotVector], ?_, ?_, ?_, ?_⟩
  · intro i j hij hj
    rw [kv_generateKnotVector n i (lt_of_le_of_lt hij hj), kv_generateKnotVector n j hj]
    exact knotVal_mono hn hij
  · intro i hi
    rw [kv_generateKnotVector n i (by omega)]
    unfold knotVal
    rw [if_neg (by omega), if_neg (by omega)]
  · intro i h3 hi
    rw [kv_generateKnotVector n i (by omega)]
    unfold knotVal
    rw [if_neg (by omega), if_pos h3]
  · intro i hni hi
    rw [kv_generateKnotVector n i hi]
    unfold knotVal
    rw [if_pos hni]

/-- Witness for C3 at n = 5. -/
theorem generateKnotVector_clamped_witness :
    (generateKnotVector 5).length = 5 + 3 :=
  (generateKnotVector_clamped 5 (by norm_num)).1

/-- C2: evaluateBasis computes the Cox-de Boor recursion: at degree 0 it is
the indicator of the half-open span (or of the closed right endpoint at the
last control-point index), and at degree k + 1 it is term1 + term2, each term
being the claimed quotient times the lower-degree basis value, with a term
whose denominator is exactly 0 replaced by 0. -/
theorem evaluateBasis_coxDeBoor (knots : List ℚ) (cp i k : ℕ) (t : ℚ) :
    (evaluateBasis knots cp i 0 t =
      if (kv knots i ≤ t ∧ t < kv knots (i + 1)) ∨
         (t = kv knots (knots.length - 1) ∧ (i : ℤ) = (cp : ℤ) - 1)
      then 1 else 0) ∧
    (evaluateBasis knots cp i (k + 1) t =
      (if kv knots (i + (k + 1)) - kv knots i ≠ 0 then
          (t - kv knots i) / (kv knots (i + (k + 1)) - kv knots i) *
            evaluateBasis knots cp i k t
        else 0) +
      (if kv knots (i + (k + 1) + 1) - kv knots (i + 1) ≠ 0 then
          (kv knots (i + (k + 1) + 1) - t) /
              (kv knots (i + (k + 1) + 1) - kv knots (i + 1)) *
            evaluateBasis knots cp (i + 1) k t
        else 0)) :=
  ⟨rfl, rfl⟩

-- Unfolding equations of evaluateBasis at degrees 0, 1, 2.
theorem eb_zero (knots : List ℚ) (cp i : ℕ) (t : ℚ) :
    evaluateBasis knots cp i 0 t =
      if (kv knots i ≤ t ∧ t < kv knots (i + 1)) ∨
         (t = kv knots (knots.length - 1) ∧ (i : ℤ) = (cp : ℤ) - 1) then 1 else 0 := rfl

theorem eb_one (knots : List ℚ) (cp i : ℕ) (t : ℚ) :
    evaluateBasis knots cp i 1 t =
      (if kv knots (i + 1) - kv knots i ≠ 0 then
          (t - kv knots i) / (kv knots (i + 1) - kv knots i) *
            evaluateBasis knots cp i 0 t
        else 0) +
      (if kv knots (i + 2) - kv knots (i + 1) ≠ 0 then
          (kv knots (i + 2) - t) / (kv knots (i + 2) - kv knots (i + 1)) *
            evaluateBasis knots cp (i + 1) 0 t
        else 0) := rfl

theorem eb_two (knots : List ℚ) (cp i : ℕ) (t : ℚ) :
    evaluateBasis knots cp i 2 t =
      (if kv knots (i + 2) - kv knots i ≠ 0 then
          (t - kv knots i) / (kv knots (i + 2) - kv knots i) *
            evaluateBasis knots cp i 1 t
        else 0) +
      (if kv knots (i + 3) - kv knots (i + 1) ≠ 0 then
          (kv knots (i + 3) - t) / (kv knots (i + 3) - kv knots (i + 1)) *
            evaluateBasis knots cp (i + 1) 1 t
        else 0) := rfl

-- Facts about the floor-based knot span of a domain-interior parameter.
theorem span_floor_le {t : ℚ} (ht0 : 0 < t) : ((⌊t⌋.toNat : ℚ)) ≤ t := by
  have h : (0 : ℤ) ≤ ⌊t⌋ := Int.floor_nonneg.mpr ht0.le
  have h2 : ((⌊t⌋.toNat : ℤ) : ℚ) = ((⌊t⌋ : ℤ) : ℚ) := by
    exact_mod_cast congrArg (fun z : ℤ => (z : ℚ)) (Int.toNat_of_nonneg h)
  calc ((⌊t⌋.toNat : ℚ)) = ((⌊t⌋ : ℤ) : ℚ) := by push_cast at h2 ⊢; exact h2
    _ ≤ t := Int.floor_le t

theorem span_lt_floor_add_one {t : ℚ} (ht0 : 0 < t) : t < (⌊t⌋.toNat : ℚ) + 1 := by
  have h : (0 : ℤ) ≤ ⌊t⌋ := Int.floor_nonneg.mpr ht0.le
  have h2 : ((⌊t⌋.toNat : ℚ)) = ((⌊t⌋ : ℤ) : ℚ) := by
    exact_mod_cast congrArg (fun z : ℤ => (z : ℚ)) (Int.toNat_of_nonneg h)
  rw [h2]
  exact Int.lt_floor_add_one t

theorem span_add_three_le {n : ℕ} {t : ℚ} (ht0 : 0 < t) (ht1 : t < (n : ℚ) - 2) :
    ⌊t⌋.toNat + 3 ≤ n := by
  have h1 : ((⌊t⌋.toNat : ℚ)) ≤ t := span_floor_le ht0
  have h2 : ((⌊t⌋.toNat : ℚ)) < (n : ℚ) - 2 := lt_of_le_of_lt h1 ht1
  have h3 : ((⌊t⌋.toNat : ℚ)) + 2 < (n : ℚ) := by linarith
  have h4 : ⌊t⌋.toNat + 2 < n := by exact_mod_cast h3
  omega

-- The knot value one past the span: index f + 3 carries the value f + 1.
theorem knotVal_span_right {n f : ℕ} (hf3 : f + 3 ≤ n) :
    knotVal n (f + 3) = (f : ℚ) + 1 := by
  unfold knotVal
  split_ifs with h1 h2
  · have h : n = f + 3 := le_antisymm h1 hf3
    subst h; push_cast; ring
  · push_cast; ring
  · omega

-- The knot value at the span: index f + 2 carries a value at most t.
theorem knotVal_span_left {n f : ℕ} {t : ℚ} (hf3 : f + 3 ≤ n)
    (hfle : (f : ℚ) ≤ t) (ht0 : 0 < t) : knotVal n (f + 2) ≤ t := by
  unfold knotVal
  split_ifs with h1 h2
  · omega
  · push_cast; linarith
  · linarith

-- Degree-0 basis values of the clamped quadratic knot vector at an interior
-- parameter: the indicator of the single span index floor(t) + 2.
theorem basis0_span {n : ℕ} {t : ℚ} (hn : 3 ≤ n) (ht0 : 0 < t)
    (ht1 : t < (n : ℚ) - 2) (i : ℕ) :
    evaluateBasis (generateKnotVector n) n i 0 t =
      if i = ⌊t⌋.toNat + 2 then 1 else 0 := by
  have hfle : ((⌊t⌋.toNat : ℚ)) ≤ t := span_floor_le ht0
  have hflt : t < ((⌊t⌋.toNat : ℚ)) + 1 := span_lt_floor_add_one ht0
  have hf3 : ⌊t⌋.toNat + 3 ≤ n := span_add_three_le ht0 ht1
  have hlen : (generateKnotVector n).length = n + 3 := by simp [generateKnotVector]
  have hlast : kv (generateKnotVector n) ((generateKnotVector n).length - 1) = (n : ℚ) - 2 := by
    rw [hlen, show n + 3 - 1 = n + 2 from by omega,
      kv_generateKnotVector n (n + 2) (by omega)]
    unfold knotVal
    rw [if_pos (by omega)]
  have hk2 : kv (generateKnotVector n) (⌊t⌋.toNat + 2) ≤ t := by
    rw [kv_generateKnotVector n _ (by omega)]
    exact knotVal_span_left hf3 hfle ht0
  have hk3 : t < kv (generateKnotVector n) (⌊t⌋.toNat + 3) := by
    rw [kv_generateKnotVector n _ (by omega), knotVal_span_right hf3]
    exact hflt
  rw [eb_zero]
  by_cases hi : i = ⌊t⌋.toNat + 2
  · subst hi
    rw [if_pos (Or.inl ⟨hk2, by
      rw [show ⌊t⌋.toNat + 2 + 1 = ⌊t⌋.toNat + 3 from by omega]; exact hk3⟩),
      if_pos rfl]
  · rw [if_neg ?_, if_neg hi]
    rintro (⟨h1, h2⟩ | ⟨h1, h2⟩)
    · rcases Nat.lt_or_ge i (⌊t⌋.toNat + 2) with hlt | hge
      · -- i + 1 <= floor(t) + 2: the right end of the span of i is at most
        -- the left end of the true span, contradicting t < kv (i + 1)
        have hle : kv (generateKnotVector n) (i + 1) ≤
            kv (generateKnotVector n) (⌊t⌋.toNat + 2) := by
          rw [kv_generateKnotVector n (i + 1) (by omega),
            kv_generateKnotVector n _ (by omega)]
          exact knotVal_mono hn (by omega)
        linarith
      · have hgt : ⌊t⌋.toNat + 3 ≤ i := by omega
        rcases Nat.lt_or_ge i (n + 3) with hin | hout
        · have hge2 : kv (generateKnotVector n) (⌊t⌋.toNat + 3) ≤
              kv (generateKnotVector n) i := by
            rw [kv_generateKnotVector n i hin, kv_generateKnotVector n _ (by omega)]
            exact knotVal_mono hn hgt
          linarith
        · have hz : kv (generateKnotVector n) (i + 1) = 0 :=
            kv_generateKnotVector_oob n (i + 1) (by omega)
          rw [hz] at h2
          linarith
    · rw [hlast] at h1
      rw [h1] at ht1
      linarith

-- Span-interval facts expressed on the generated knot vector itself.
theorem kv_span_le {n : ℕ} {t : ℚ} (hn : 3 ≤ n) (ht0 : 0 < t)
    (ht1 : t < (n : ℚ) - 2) :
    kv (generateKnotVector n) (⌊t⌋.toNat + 2) ≤ t := by
  rw [kv_generateKnotVector n _ (by have := span_add_three_le ht0 ht1; omega)]
  exact knotVal_span_left (span_add_three_le ht0 ht1) (span_floor_le ht0) ht0

theorem kv_span_gt {n : ℕ} {t : ℚ} (hn : 3 ≤ n) (ht0 : 0 < t)
    (ht1 : t < (n : ℚ) - 2) :
    t < kv (generateKnotVector n) (⌊t⌋.toNat + 3) := by
  rw [kv_generateKnotVector n _ (by have := span_add_three_le ht0 ht1; omega),
    knotVal_span_right (span_add_three_le ht0 ht1)]
  exact span_lt_floor_add_one ht0

theorem kv_span_mono {n : ℕ} {t : ℚ} (hn : 3 ≤ n) (ht0 : 0 < t)
    (ht1 : t < (n : ℚ) - 2) {a b : ℕ} (hab : a ≤ b) (hb : b ≤ ⌊t⌋.toNat + 4) :
    kv (generateKnotVector n) a ≤ kv (generateKnotVector n) b := by
  have hf3 := span_add_three_le ht0 ht1
  rw [kv_generateKnotVector n a (by omega), kv_generateKnotVector n b (by omega)]
  exact knotVal_mono hn hab

-- The three denominator non-vanishing facts at the span.
theorem kv_ne32 {n : ℕ} {t : ℚ} (hn : 3 ≤ n) (ht0 : 0 < t) (ht1 : t < (n : ℚ) - 2) :
    kv (generateKnotVector n) (⌊t⌋.toNat + 3) - kv (generateKnotVector n) (⌊t⌋.toNat + 2) ≠ 0 :=
  sub_ne_zero.mpr (ne_of_gt (lt_of_le_of_lt (kv_span_le hn ht0 ht1) (kv_span_gt hn ht0 ht1)))

theorem kv_ne31 {n : ℕ} {t : ℚ} (hn : 3 ≤ n) (ht0 : 0 < t) (ht1 : t < (n : ℚ) - 2) :
    kv (generateKnotVector n) (⌊t⌋.toNat + 3) - kv (generateKnotVector n) (⌊t⌋.toNat + 1) ≠ 0 := by
  have h1 : kv (generateKnotVector n) (⌊t⌋.toNat + 1) ≤
      kv (generateKnotVector n) (⌊t⌋.toNat + 2) := kv_span_mono hn ht0 ht1 (by omega) (by omega)
  have h2 := kv_span_le hn ht0 ht1
  have h3 := kv_span_gt hn ht0 ht1
  exact sub_ne_zero.mpr (ne_of_gt (by linarith))

theorem kv_ne42 {n : ℕ} {t : ℚ} (hn : 3 ≤ n) (ht0 : 0 < t) (ht1 : t < (n : ℚ) - 2) :
    kv (generateKnotVector n) (⌊t⌋.toNat + 4) - kv (generateKnotVector n) (⌊t⌋.toNat + 2) ≠ 0 := by
  have h1 : kv (generateKnotVector n) (⌊t⌋.toNat + 3) ≤
      kv (generateKnotVector n) (⌊t⌋.toNat + 4) := kv_span_mono hn ht0 ht1 (by omega) (by omega)
  have h2 := kv_span_le hn ht0 ht1
  have h3 := kv_span_gt hn ht0 ht1
  exact sub_ne_zero.mpr (ne_of_gt (by linarith))

-- Degree-1 basis values at the span.
theorem basis1_at_span {n : ℕ} {t : ℚ} (hn : 3 ≤ n) (ht0 : 0 < t) (ht1 : t < (n : ℚ) - 2) :
    evaluateBasis (generateKnotVector n) n (⌊t⌋.toNat + 2) 1 t =
      (t - kv (generateKnotVector n) (⌊t⌋.toNat + 2)) /
        (kv (generateKnotVector n) (⌊t⌋.toNat + 3) - kv (generateKnotVector n) (⌊t⌋.toNat + 2)) := by
  rw [eb_one,
    show ⌊t⌋.toNat + 2 + 1 = ⌊t⌋.toNat + 3 from by omega,
    show ⌊t⌋.toNat + 2 + 2 = ⌊t⌋.toNat + 4 from by omega,
    basis0_span hn ht0 ht1 (⌊t⌋.toNat + 2), basis0_span hn ht0 ht1 (⌊t⌋.toNat + 3),
    if_pos rfl, if_neg (by omega : ¬(⌊t⌋.toNat + 3 = ⌊t⌋.toNat + 2)),
    mul_one, mul_zero, ite_self, add_zero, if_pos (kv_ne32 hn ht0 ht1)]

theorem basis1_before_span {n : ℕ} {t : ℚ} (hn : 3 ≤ n) (ht0 : 0 < t) (ht1 : t < (n : ℚ) - 2) :
    evaluateBasis (generateKnotVector n) n (⌊t⌋.toNat + 1) 1 t =
      (kv (generateKnotVector n) (⌊t⌋.toNat + 3) - t) /
        (kv (generateKnotVector n) (⌊t⌋.toNat + 3) - kv (generateKnotVector n) (⌊t⌋.toNat + 2)) := by
  rw [eb_one,
    show ⌊t⌋.toNat + 1 + 1 = ⌊t⌋.toNat + 2 from by omega,
    show ⌊t⌋.toNat + 1 + 2 = ⌊t⌋.toNat + 3 from by omega,
    basis0_span hn ht0 ht1 (⌊t⌋.toNat + 1), basis0_span hn ht0 ht1 (⌊t⌋.toNat + 2),
    if_neg (by omega : ¬(⌊t⌋.toNat + 1 = ⌊t⌋.toNat + 2)), if_pos rfl,
    mul_zero, ite_self, mul_one, zero_add, if_pos (kv_ne32 hn ht0 ht1)]

theorem basis1_zero {n : ℕ} {t : ℚ} (hn : 3 ≤ n) (ht0 : 0 < t) (ht1 : t < (n : ℚ) - 2)
    (i : ℕ) (h1 : i ≠ ⌊t⌋.toNat + 1) (h2 : i ≠ ⌊t⌋.toNat + 2) :
    evaluateBasis (generateKnotVector n) n i 1 t = 0 := by
  rw [eb_one, basis0_span hn ht0 ht1 i, basis0_span hn ht0 ht1 (i + 1),
    if_neg h2, if_neg (by omega : ¬(i + 1 = ⌊t⌋.toNat + 2)),
    mul_zero, mul_zero, ite_self, ite_self, add_zero]

-- Degree-2 basis values at the span.
theorem basis2_at_span {n : ℕ} {t : ℚ} (hn : 3 ≤ n) (ht0 : 0 < t) (ht1 : t < (n : ℚ) - 2) :
    evaluateBasis (generateKnotVector n) n (⌊t⌋.toNat + 2) 2 t =
      (t - kv (generateKnotVector n) (⌊t⌋.toNat + 2)) /
          (kv (generateKnotVector n) (⌊t⌋.toNat + 4) - kv (generateKnotVector n) (⌊t⌋.toNat + 2)) *
        ((t - kv (generateKnotVector n) (⌊t⌋.toNat + 2)) /
          (kv (generateKnotVector n) (⌊t⌋.toNat + 3) - kv (generateKnotVector n) (⌊t⌋.toNat + 2))) := by
  rw [eb_two,
    show ⌊t⌋.toNat + 2 + 2 = ⌊t⌋.toNat + 4 from by omega,
    show ⌊t⌋.toNat + 2 + 3 = ⌊t⌋.toNat + 5 from by omega,
    show ⌊t⌋.toNat + 2 + 1 = ⌊t⌋.toNat + 3 from by omega,
    basis1_at_span hn ht0 ht1,
    basis1_zero hn ht0 ht1 (⌊t⌋.toNat + 3) (by omega) (by omega),
    mul_zero, ite_self, add_zero, if_pos (kv_ne42 hn ht0 ht1)]

theorem basis2_mid_span {n : ℕ} {t : ℚ} (hn : 3 ≤ n) (ht0 : 0 < t) (ht1 : t < (n : ℚ) - 2) :
    evaluateBasis (generateKnotVector n) n (⌊t⌋.toNat + 1) 2 t =
      (t - kv (generateKnotVector n) (⌊t⌋.toNat + 1)) /
          (kv (generateKnotVector n) (⌊t⌋.toNat + 3) - kv (generateKnotVector n) (⌊t⌋.toNat + 1)) *
        ((kv (generateKnotVector n) (⌊t⌋.toNat + 3) - t) /
          (kv (generateKnotVector n) (⌊t⌋.toNat + 3) - kv (generateKnotVector n) (⌊t⌋.toNat + 2))) +
      (kv (generateKnotVector n) (⌊t⌋.toNat + 4) - t) /
          (kv (generateKnotVector n) (⌊t⌋.toNat + 4) - kv (generateKnotVector n) (⌊t⌋.toNat + 2)) *
        ((t - kv (generateKnotVector n) (⌊t⌋.toNat + 2)) /
          (kv (generateKnotVector n) (⌊t⌋.toNat + 3) - kv (generateKnotVector n) (⌊t⌋.toNat + 2))) := by
  rw [eb_two,
    show ⌊t⌋.toNat + 1 + 2 = ⌊t⌋.toNat + 3 from by omega,
    show ⌊t⌋.toNat + 1 + 3 = ⌊t⌋.toNat + 4 from by omega,
    show ⌊t⌋.toNat + 1 + 1 = ⌊t⌋.toNat + 2 from by omega,
    basis1_before_span hn ht0 ht1, basis1_at_span hn ht0 ht1,
    if_pos (kv_ne31 hn ht0 ht1), if_pos (kv_ne42 hn ht0 ht1)]

theorem basis2_lo_span {n : ℕ} {t : ℚ} (hn : 3 ≤ n) (ht0 : 0 < t) (ht1 : t < (n : ℚ) - 2) :
    evaluateBasis (generateKnotVector n) n ⌊t⌋.toNat 2 t =
      (kv (generateKnotVector n) (⌊t⌋.toNat + 3) - t) /
          (kv (generateKnotVector n) (⌊t⌋.toNat + 3) - kv (generateKnotVector n) (⌊t⌋.toNat + 1)) *
        ((kv (generateKnotVector n) (⌊t⌋.toNat + 3) - t) /
          (kv (generateKnotVector n) (⌊t⌋.toNat + 3) - kv (generateKnotVector n) (⌊t⌋.toNat + 2))) := by
  rw [eb_two,
    basis1_zero hn ht0 ht1 ⌊t⌋.toNat (by omega) (by omega),
    show ⌊t⌋.toNat + 3 = ⌊t⌋.toNat + 3 from rfl,
    basis1_before_span hn ht0 ht1,
    mul_zero, ite_self, zero_add, if_pos (kv_ne31 hn ht0 ht1)]

theorem basis2_zero {n : ℕ} {t : ℚ} (hn : 3 ≤ n) (ht0 : 0 < t) (ht1 : t < (n : ℚ) - 2)
    (i : ℕ) (h0 : i ≠ ⌊t⌋.toNat) (h1 : i ≠ ⌊t⌋.toNat + 1) (h2 : i ≠ ⌊t⌋.toNat + 2) :
    evaluateBasis (generateKnotVector n) n i 2 t = 0 := by
  rw [eb_two, basis1_zero hn ht0 ht1 i h1 h2,
    basis1_zero hn ht0 ht1 (i + 1) (by omega) (by omega),
    mul_zero, mul_zero, ite_self, ite_self, add_zero]

/-- C4: for every B-spline with n >= 3 control points and its clamped knot
vector, and every parameter t strictly inside the domain
[knot 2, knot (length - 3)], the degree-2 basis values over all control-point
indices sum to exactly 1 (partition of unity). -/
theorem basis_partition_of_unity (n : ℕ) (t : ℚ) (hn : 3 ≤ n)
    (h0 : kv (generateKnotVector n) 2 < t)
    (h1 : t < kv (generateKnotVector n) ((generateKnotVector n).length - 3)) :
    ∑ i ∈ Finset.range n, evaluateBasis (generateKnotVector n) n i 2 t = 1 := by
  have hlen : (generateKnotVector n).length = n + 3 := by simp [generateKnotVector]
  have hkv2 : kv (generateKnotVector n) 2 = 0 := by
    rw [kv_generateKnotVector n 2 (by omega)]
    unfold knotVal
    rw [if_neg (by omega), if_neg (by omega)]
  have hkvn : kv (generateKnotVector n) ((generateKnotVector n).length - 3) = (n : ℚ) - 2 := by
    rw [hlen, show n + 3 - 3 = n from by omega, kv_generateKnotVector n n (by omega)]
    unfold knotVal
    rw [if_pos le_rfl]
  have ht0 : 0 < t := by rw [hkv2] at h0; exact h0
  have ht1 : t < (n : ℚ) - 2 := by rw [hkvn] at h1; exact h1
  have hf3 : ⌊t⌋.toNat + 3 ≤ n := span_add_three_le ht0 ht1
  have hsubset : ({⌊t⌋.toNat, ⌊t⌋.toNat + 1, ⌊t⌋.toNat + 2} : Finset ℕ) ⊆ Finset.range n := by
    intro x hx
    simp only [Finset.mem_insert, Finset.mem_singleton] at hx
    rw [Finset.mem_range]
    omega
  have hz : ∀ i ∈ Finset.range n,
      i ∉ ({⌊t⌋.toNat, ⌊t⌋.toNat + 1, ⌊t⌋.toNat + 2} : Finset ℕ) →
      evaluateBasis (generateKnotVector n) n i 2 t = 0 := by
    intro i _ hi
    simp only [Finset.mem_insert, Finset.mem_singleton, not_or] at hi
    exact basis2_zero hn ht0 ht1 i hi.1 hi.2.1 hi.2.2
  rw [← Finset.sum_subset hsubset hz,
    Finset.sum_insert (by simp only [Finset.mem_insert, Finset.mem_singleton]; omega),
    Finset.sum_insert (by simp only [Finset.mem_singleton]; omega),
    Finset.sum_singleton,
    basis2_lo_span hn ht0 ht1, basis2_mid_span hn ht0 ht1, basis2_at_span hn ht0 ht1]
  have hne32 := kv_ne32 hn ht0 ht1
  have hne31 := kv_ne31 hn ht0 ht1
  have hne42 := kv_ne42 hn ht0 ht1
  field_simp
  ring

/-- Witness for C4 at n = 4, t = 1/2. -/
theorem basis_partition_of_unity_witness :
    ∑ i ∈ Finset.range 4, evaluateBasis (generateKnotVector 4) 4 i 2 (1/2) = 1 :=
  basis_partition_of_unity 4 (1/2) (by norm_num)
    (by norm_num [kv, generateKnotVector, knotVal, List.range_succ])
    (by norm_num [kv, generateKnotVector, knotVal, List.range_succ])

-- Folding additions over a list equals the sum of the mapped list.
theorem foldl_add_eq_sum (g : ℕ → Vec3) (l : List ℕ) :
    ∀ init : Vec3, l.foldl (fun acc i => acc + g i) init = init + (l.map g).sum := by
  induction l with
  | nil => intro init; simp
  | cons x xs ih => intro init; simp [ih, add_assoc]

theorem sum_map_range (g : ℕ → Vec3) (n : ℕ) :
    ((List.range n).map g).sum = ∑ i ∈ Finset.range n, g i := by
  induction n with
  | zero => simp
  | succ m ih => simp [List.range_succ, Finset.sum_range_succ, ih]

/-- C5: for every parameter t and requested derivative order d, the B-spline
eval produces d + 1 vectors, slot 0 holding the sum over all control points of
the degree-2 basis value times the control point, and slots 1..d holding zero
vectors. -/
theorem evalMyBSpline_characterization (knots : List ℚ) (cps : List Vec3) (t : ℚ) (d : ℕ) :
    (evalMyBSpline knots cps t d).length = d + 1 ∧
    pt (evalMyBSpline knots cps t d) 0 =
      ∑ i ∈ Finset.range cps.length, evaluateBasis knots cps.length i 2 t • pt cps i ∧
    ∀ j, 1 ≤ j → j ≤ d → pt (evalMyBSpline knots cps t d) j = 0 := by
  refine ⟨by simp [evalMyBSpline], ?_, ?_⟩
  · show ((List.range cps.length).foldl _ 0) = _
    rw [foldl_add_eq_sum, zero_add, sum_map_range]
  · intro j h1 h2
    cases j with
    | zero => omega
    | succ jj =>
      show (List.replicate d (0 : Vec3)).getD jj 0 = 0
      by_cases h : jj < d
      · rw [List.getD_eq_getElem _ _ (by simpa using h)]
        simp
      · rw [List.getD_eq_default _ _ (by simpa using Nat.le_of_not_lt h)]

/-- ClosedSubdivisionCurve::laneRiesenfeldSubdivision, step 1: for a current
polygon of size N, the new 2N-point polygon alternates original points
(at even slots 2i) with wrap-around edge midpoints (at odd slots 2i + 1). -/
def midpointInsert (pts : List Vec3) : List Vec3 :=
  (List.range pts.length).flatMap
    (fun i => [pt pts i, (1/2 : ℚ) • (pt pts i + pt pts ((i + 1) % pts.length))])

/-- ClosedSubdivisionCurve::laneRiesenfeldSubdivision, step 2: one smoothing
pass replacing each point by the average of itself and its predecessor, with
wrap-around (the C++ index (i - 1 + N) % N equals (i + N - 1) % N for
0 <= i < N). -/
def averageWithPrev (pts : List Vec3) : List Vec3 :=
  (List.range pts.length).map
    (fun i => (1/2 : ℚ) • (pt pts i + pt pts ((i + pts.length - 1) % pts.length)))

/-- ClosedSubdivisionCurve::laneRiesenfeldSubdivision: r outer iterations of
midpoint insertion followed by r - 1 smoothing passes, then forcing the last
point to equal the first whenever more than one point is present. -/
def laneRiesenfeldSubdivision (cps : List Vec3) (r : ℕ) : List Vec3 :=
  let pts := (fun q => averageWithPrev^[r - 1] (midpointInsert q))^[r] cps
  if 1 < pts.length then pts.set (pts.length - 1) (pt pts 0) else pts

-- Length and entry lemmas for alternating pair insertion.
theorem pairList_length (a b : ℕ → Vec3) (l : List ℕ) :
    (l.flatMap (fun i => [a i, b i])).length = 2 * l.length := by
  induction l with
  | nil => rfl
  | cons x xs ih => simp only [List.flatMap_cons, List.length_append, List.length_cons,
      List.length_nil, ih, List.length_cons]; omega

theorem pairList_getD_even (a b : ℕ → Vec3) :
    ∀ (l : List ℕ) (j : ℕ), j < l.length →
      (l.flatMap (fun i => [a i, b i])).getD (2 * j) 0 = a (l.getD j 0) := by
  intro l
  induction l with
  | nil => intro j h; simp at h
  | cons x xs ih =>
    intro j h
    cases j with
    | zero => rfl
    | succ jj =>
      rw [show 2 * (jj + 1) = 2 * jj + 1 + 1 from by omega]
      show (xs.flatMap (fun i => [a i, b i])).getD (2 * jj) 0 = _
      exact ih jj (by simpa using Nat.lt_of_succ_lt_succ h)

theorem pairList_getD_odd (a b : ℕ → Vec3) :
    ∀ (l : List ℕ) (j : ℕ), j < l.length →
      (l.flatMap (fun i => [a i, b i])).getD (2 * j + 1) 0 = b (l.getD j 0) := by
  intro l
  induction l with
  | nil => intro j h; simp at h
  | cons x xs ih =>
    intro j h
    cases j with
    | zero => rfl
    | succ jj =>
      rw [show 2 * (jj + 1) + 1 = 2 * jj + 1 + 1 + 1 from by omega]
      show (xs.flatMap (fun i => [a i, b i])).getD (2 * jj + 1) 0 = _
      exact ih jj (by simpa using Nat.lt_of_succ_lt_succ h)

theorem range_getD (N j : ℕ) (h : j < N) : (List.range N).getD j 0 = j := by
  rw [List.getD_eq_getElem _ _ (by simpa using h)]
  simp

theorem map_range_getD (g : ℕ → Vec3) (N i : ℕ) (h : i < N) :
    ((List.range N).map g).getD i 0 = g i := by
  rw [List.getD_eq_getElem _ _ (by simpa using h)]
  simp

/-- C6: each outer subdivision iteration first replaces the N-point polygon by
a 2N-point polygon alternating original points (even slots) with wrap-around
edge midpoints (odd slots), then applies smoothing passes averaging each point
with its wrap-around predecessor; laneRiesenfeldSubdivision performs exactly r
such iterations, with r - 1 smoothing passes each, and finally forces the last
cached point to equal the first. -/
theorem laneRiesenfeld_structure :
    (∀ pts : List Vec3, (midpointInsert pts).length = 2 * pts.length) ∧
    (∀ (pts : List Vec3) (i : ℕ), i < pts.length →
      pt (midpointInsert pts) (2 * i) = pt pts i ∧
      pt (midpointInsert pts) (2 * i + 1) =
        (1/2 : ℚ) • (pt pts i + pt pts ((i + 1) % pts.length))) ∧
    (∀ (pts : List Vec3) (i : ℕ), i < pts.length →
      pt (averageWithPrev pts) i =
        (1/2 : ℚ) • (pt pts i + pt pts ((i + pts.length - 1) % pts.length))) ∧
    (∀ (cps : List Vec3) (r : ℕ),
      laneRiesenfeldSubdivision cps r =
        (let pts := (fun q => averageWithPrev^[r - 1] (midpointInsert q))^[r] cps
         if 1 < pts.length then pts.set (pts.length - 1) (pt pts 0) else pts)) := by
  refine ⟨?_, ?_, ?_, fun cps r => rfl⟩
  · intro pts
    have h := pairList_length (fun i => pt pts i)
      (fun i => (1/2 : ℚ) • (pt pts i + pt pts ((i + 1) % pts.length)))
      (List.range pts.length)
    simpa [midpointInsert] using h
  · intro pts i hi
    have hlen : i < (List.range pts.length).length := by simpa using hi
    constructor
    · unfold midpointInsert pt
      rw [pairList_getD_even _ _ (List.range pts.length) i hlen, range_getD _ _ hi]
    · unfold midpointInsert pt
      rw [pairList_getD_odd _ _ (List.range pts.length) i hlen, range_getD _ _ hi]
  · intro pts i hi
    unfold averageWithPrev pt
    rw [map_range_getD _ _ _ hi]

-- Length bookkeeping through the subdivision pipeline.
theorem averageWithPrev_length (pts : List Vec3) :
    (averageWithPrev pts).length = pts.length := by
  simp [averageWithPrev]

theorem averageWithPrev_iterate_length (k : ℕ) (pts : List Vec3) :
    (averageWithPrev^[k] pts).length = pts.length := by
  induction k generalizing pts with
  | zero => rfl
  | succ m ih => rw [Function.iterate_succ_apply, ih, averageWithPrev_length]

theorem midpointInsert_length (pts : List Vec3) :
    (midpointInsert pts).length = 2 * pts.length := by
  have h := pairList_length (fun i => pt pts i)
    (fun i => (1/2 : ℚ) • (pt pts i + pt pts ((i + 1) % pts.length)))
    (List.range pts.length)
  simpa [midpointInsert] using h

theorem lrOuter_iterate_length (r m : ℕ) (cps : List Vec3) :
    (((fun q => averageWithPrev^[r - 1] (midpointInsert q))^[m]) cps).length =
      2 ^ m * cps.length := by
  induction m generalizing cps with
  | zero => simp
  | succ k ih =>
    rw [Function.iterate_succ_apply, ih, averageWithPrev_iterate_length,
      midpointInsert_length]
    ring

/-- The state of a ClosedSubdivisionCurve object: the original control
polygon, the subdivision degree, the cached subdivided points, and the
evaluation buffer _p written by eval. -/
structure SubCurveState where
  controlPoints : List Vec3
  degree : ℕ
  subdividedPoints : List Vec3
  pbuf : List Vec3

/-- ClosedSubdivisionCurve constructor: stores the control points and degree
and computes the subdivision cache; _p starts empty. -/
def mkClosedSubdivisionCurve (cps : List Vec3) (deg : ℕ) : SubCurveState :=
  { controlPoints := cps
    degree := deg
    subdividedPoints := laneRiesenfeldSubdivision cps deg
    pbuf := [] }

/-- ClosedSubdivisionCurve::eval's result buffer: maps t to a fractional
index over the cache (int cast of floor, C++ truncated % of the point count),
interpolates linearly to the next point (wrapping), and if d > 0 writes a
central-difference first derivative; remaining slots of the d + 1 sized
buffer are never written, hence zero. -/
def subdivIndex (pts : List Vec3) (t : ℚ) : ℕ :=
  (Int.tmod ⌊t * ((pts.length : ℚ) - 1)⌋ (pts.length : ℤ)).toNat

def subdivAlpha (pts : List Vec3) (t : ℚ) : ℚ :=
  t * ((pts.length : ℚ) - 1) - (subdivIndex pts t : ℚ)

def subdivEvalResult (pts : List Vec3) (t : ℚ) (d : ℕ) : List Vec3 :=
  if 0 < d then
    ((1 - subdivAlpha pts t) • pt pts (subdivIndex pts t) +
        subdivAlpha pts t • pt pts ((subdivIndex pts t + 1) % pts.length)) ::
      ((1/2 : ℚ) • (pt pts ((subdivIndex pts t + 1) % pts.length) -
          pt pts ((subdivIndex pts t + pts.length - 1) % pts.length))) ::
        List.replicate (d - 1) 0
  else
    [(1 - subdivAlpha pts t) • pt pts (subdivIndex pts t) +
        subdivAlpha pts t • pt pts ((subdivIndex pts t + 1) % pts.length)]

/-- ClosedSubdivisionCurve::eval as a state transformer: it only writes the
evaluation buffer _p, leaving the subdivision cache untouched. -/
def evalClosedSubdivision (s : SubCurveState) (t : ℚ) (d : ℕ) : SubCurveState :=
  { s with pbuf := subdivEvalResult s.subdividedPoints t d }

-- Evaluation never touches the subdivision cache, under any sequence of calls.
theorem foldl_eval_preserves_cache (calls : List (ℚ × ℕ)) :
    ∀ s : SubCurveState,
      (calls.foldl (fun st c => evalClosedSubdivision st c.1 c.2) s).subdividedPoints =
        s.subdividedPoints := by
  induction calls with
  | nil => intro s; rfl
  | cons c cs ih => intro s; rw [List.foldl_cons, ih]; rfl

/-- C7: after construction with n >= 1 control points and subdivision degree
r >= 1, the first and last entries of the subdivided point set are identical,
and the subdivided point set is unchanged by every subsequent sequence of
eval calls (eval only rewrites the evaluation buffer). -/
theorem closedSubdivision_closure_invariant (cps : List Vec3) (r : ℕ)
    (hr : 1 ≤ r) (hn : 1 ≤ cps.length) (calls : List (ℚ × ℕ)) :
    (calls.foldl (fun st c => evalClosedSubdivision st c.1 c.2)
        (mkClosedSubdivisionCurve cps r)).subdividedPoints =
      (mkClosedSubdivisionCurve cps r).subdividedPoints ∧
    pt (mkClosedSubdivisionCurve cps r).subdividedPoints 0 =
      pt (mkClosedSubdivisionCurve cps r).subdividedPoints
        ((mkClosedSubdivisionCurve cps r).subdividedPoints.length - 1) := by
  refine ⟨foldl_eval_preserves_cache calls _, ?_⟩
  show pt (laneRiesenfeldSubdivision cps r) 0 =
    pt (laneRiesenfeldSubdivision cps r) ((laneRiesenfeldSubdivision cps r).length - 1)
  have hlen : (((fun q => averageWithPrev^[r - 1] (midpointInsert q))^[r]) cps).length =
      2 ^ r * cps.length := lrOuter_iterate_length r r cps
  have h2 : 2 ≤ 2 ^ r * cps.length := by
    have h21 : 2 ^ 1 ≤ 2 ^ r := Nat.pow_le_pow_right (by norm_num) hr
    calc 2 = 2 ^ 1 * 1 := by norm_num
    _ ≤ 2 ^ r * cps.length := Nat.mul_le_mul h21 hn
  set q := ((fun q => averageWithPrev^[r - 1] (midpointInsert q))^[r]) cps with hq
  have hgt : 1 < q.length := by omega
  unfold laneRiesenfeldSubdivision
  rw [← hq, if_pos hgt]
  have hset_len : (q.set (q.length - 1) (pt q 0)).length = q.length := by simp
  rw [hset_len]
  generalize hvv : pt q 0 = v
  unfold pt
  rw [List.getD_eq_getElem _ _ (by rw [List.length_set]; omega),
    List.getD_eq_getElem _ _ (by rw [List.length_set]; omega),
    List.getElem_set_ne (by omega : q.length - 1 ≠ 0),
    List.getElem_set_self (by rw [List.length_set]; omega)]
  rw [← hvv]
  unfold pt
  exact (List.getD_eq_getElem q 0 (by omega)).symm

/-- Witness for C7: one control point, degree 1, one eval call. -/
theorem closedSubdivision_closure_invariant_witness :
    ([((1 : ℚ) / 2, 1)].foldl (fun st c => evalClosedSubdivision st c.1 c.2)
        (mkClosedSubdivisionCurve [((0 : ℚ), (0 : ℚ), (0 : ℚ))] 1)).subdividedPoints =
      (mkClosedSubdivisionCurve [((0 : ℚ), (0 : ℚ), (0 : ℚ))] 1).subdividedPoints ∧
    pt (mkClosedSubdivisionCurve [((0 : ℚ), (0 : ℚ), (0 : ℚ))] 1).subdividedPoints 0 =
      pt (mkClosedSubdivisionCurve [((0 : ℚ), (0 : ℚ), (0 : ℚ))] 1).subdividedPoints
        ((mkClosedSubdivisionCurve [((0 : ℚ), (0 : ℚ), (0 : ℚ))] 1).subdividedPoints.length - 1) :=
  closedSubdivision_closure_invariant [((0 : ℚ), (0 : ℚ), (0 : ℚ))] 1 (by norm_num)
    (by norm_num) [((1 : ℚ) / 2, 1)]

-- For t in [0,1] and at least 2 cached points, the C++ truncated modulo is
-- the identity on the floored scaled parameter, which is already in range.
theorem subdivIndex_eq (pts : List Vec3) (t : ℚ) (hN : 2 ≤ pts.length)
    (h0 : 0 ≤ t) (h1 : t ≤ 1) :
    subdivIndex pts t = ⌊t * ((pts.length : ℚ) - 1)⌋.toNat ∧
    ⌊t * ((pts.length : ℚ) - 1)⌋.toNat < pts.length := by
  have hN1 : (0 : ℚ) ≤ (pts.length : ℚ) - 1 := by
    have h2 : (2 : ℚ) ≤ (pts.length : ℚ) := by exact_mod_cast hN
    linarith
  have hsc0 : 0 ≤ t * ((pts.length : ℚ) - 1) := mul_nonneg h0 hN1
  have hscle : t * ((pts.length : ℚ) - 1) ≤ (pts.length : ℚ) - 1 :=
    mul_le_of_le_one_left hN1 h1
  have hfl0 : 0 ≤ ⌊t * ((pts.length : ℚ) - 1)⌋ := Int.floor_nonneg.mpr hsc0
  have hfllt : ⌊t * ((pts.length : ℚ) - 1)⌋ < (pts.length : ℤ) := by
    have hle : ((⌊t * ((pts.length : ℚ) - 1)⌋ : ℤ) : ℚ) ≤ (pts.length : ℚ) - 1 :=
      le_trans (Int.floor_le _) hscle
    have hle2 : ⌊t * ((pts.length : ℚ) - 1)⌋ ≤ (pts.length : ℤ) - 1 := by
      exact_mod_cast hle
    omega
  refine ⟨?_, by omega⟩
  unfold subdivIndex
  rw [Int.tmod_eq_of_lt hfl0 hfllt]

/-- C8: eval on a cache of at least 2 points, with t in [0,1], scales t by
(point count - 1), takes the integer part modulo the point count as the lower
index i and the fractional remainder as the weight alpha, returns position
(1 - alpha) * P i + alpha * P ((i+1) mod count), and when d > 0 writes as
first derivative 0.5 * (P ((i+1) mod count) - P ((i-1+count) mod count)),
independent of alpha. -/
theorem subdivEval_characterization (pts : List Vec3) (t : ℚ) (d : ℕ)
    (hN : 2 ≤ pts.length) (h0 : 0 ≤ t) (h1 : t ≤ 1) :
    pt (subdivEvalResult pts t d) 0 =
      (1 - (t * ((pts.length : ℚ) - 1) -
          ((⌊t * ((pts.length : ℚ) - 1)⌋.toNat % pts.length : ℕ) : ℚ))) •
        pt pts (⌊t * ((pts.length : ℚ) - 1)⌋.toNat % pts.length) +
      (t * ((pts.length : ℚ) - 1) -
          ((⌊t * ((pts.length : ℚ) - 1)⌋.toNat % pts.length : ℕ) : ℚ)) •
        pt pts ((⌊t * ((pts.length : ℚ) - 1)⌋.toNat % pts.length + 1) % pts.length) ∧
    (0 < d → pt (subdivEvalResult pts t d) 1 =
      (1/2 : ℚ) •
        (pt pts ((⌊t * ((pts.length : ℚ) - 1)⌋.toNat % pts.length + 1) % pts.length) -
          pt pts ((⌊t * ((pts.length : ℚ) - 1)⌋.toNat % pts.length + pts.length - 1) %
            pts.length))) := by
  obtain ⟨hidx, hlt⟩ := subdivIndex_eq pts t hN h0 h1
  have hmod : ⌊t * ((pts.length : ℚ) - 1)⌋.toNat % pts.length = subdivIndex pts t := by
    rw [hidx]
    exact Nat.mod_eq_of_lt hlt
  rw [hmod]
  constructor
  · unfold subdivEvalResult subdivAlpha
    by_cases hd : 0 < d
    · rw [if_pos hd]; rfl
    · rw [if_neg hd]; rfl
  · intro hd
    unfold subdivEvalResult
    rw [if_pos hd]
    rfl

/-- Witness for C8: three cached points, t = 1/3, d = 1. -/
theorem subdivEval_characterization_witness :
    pt (subdivEvalResult [((0 : ℚ), 0, 0), ((1 : ℚ), 0, 0), ((0 : ℚ), 1, 0)] (1/3) 1) 0 =
      (1 - ((1/3 : ℚ) * ((3 : ℚ) - 1) -
          ((⌊(1/3 : ℚ) * ((3 : ℚ) - 1)⌋.toNat % 3 : ℕ) : ℚ))) •
        pt [((0 : ℚ), 0, 0), ((1 : ℚ), 0, 0), ((0 : ℚ), 1, 0)]
          (⌊(1/3 : ℚ) * ((3 : ℚ) - 1)⌋.toNat % 3) +
      ((1/3 : ℚ) * ((3 : ℚ) - 1) -
          ((⌊(1/3 : ℚ) * ((3 : ℚ) - 1)⌋.toNat % 3 : ℕ) : ℚ)) •
        pt [((0 : ℚ), 0, 0), ((1 : ℚ), 0, 0), ((0 : ℚ), 1, 0)]
          ((⌊(1/3 : ℚ) * ((3 : ℚ) - 1)⌋.toNat % 3 + 1) % 3) := by
  have h := subdivEval_characterization
    [((0 : ℚ), 0, 0), ((1 : ℚ), 0, 0), ((0 : ℚ), 1, 0)] (1/3) 1
    (by norm_num) (by norm_num) (by norm_num)
  simpa using h.1

/-- TorusKnot::eval position with R = 2, p = 2, q = 3:
x = (R + cos(q t)) cos(p t), y = (R + cos(q t)) sin(p t), z = sin(q t). -/
noncomputable def tkPos (t : ℝ) : ℝ × ℝ × ℝ :=
  ((2 + Real.cos (3 * t)) * Real.cos (2 * t),
   (2 + Real.cos (3 * t)) * Real.sin (2 * t),
   Real.sin (3 * t))

/-- TorusKnot::eval first derivative (dx, dy, dz) as written in the code,
with R = 2, p = 2, q = 3 substituted. -/
noncomputable def tkVel (t : ℝ) : ℝ × ℝ × ℝ :=
  (-2 * (2 + Real.cos (3 * t)) * Real.sin (2 * t) - 3 * Real.sin (3 * t) * Real.cos (2 * t),
   2 * (2 + Real.cos (3 * t)) * Real.cos (2 * t) - 3 * Real.sin (3 * t) * Real.sin (2 * t),
   3 * Real.cos (3 * t))

/-- TorusKnot::eval second derivative (partA + partB, partC + partD, zpp) as
written in the code, with R = 2, p = 2, q = 3 substituted. -/
noncomputable def tkAcc (t : ℝ) : ℝ × ℝ × ℝ :=
  (-2 * (2 * (2 + Real.cos (3 * t)) * Real.cos (2 * t) -
        3 * Real.sin (3 * t) * Real.sin (2 * t)) +
      -3 * (3 * Real.cos (3 * t) * Real.cos (2 * t) -
        2 * Real.sin (3 * t) * Real.sin (2 * t)),
   2 * (-2 * (2 + Real.cos (3 * t)) * Real.sin (2 * t) -
        3 * Real.sin (3 * t) * Real.cos (2 * t)) +
      -3 * (3 * Real.cos (3 * t) * Real.sin (2 * t) +
        2 * Real.sin (3 * t) * Real.cos (2 * t)),
   -3 * 3 * Real.sin (3 * t))

/-- TorusKnot::eval: the d + 1 sized result holds the position, then the
first derivative when d > 0, then the second derivative when d > 1; further
slots are never written, hence zero. -/
noncomputable def torusKnotEval (t : ℝ) (d : ℕ) : List (ℝ × ℝ × ℝ) :=
  if 0 < d then
    if 1 < d then tkPos t :: tkVel t :: tkAcc t :: List.replicate (d - 2) 0
    else [tkPos t, tkVel t]
  else [tkPos t]

/-- C9: TorusKnot::eval returns position ((R+cos(qt))cos(pt),
(R+cos(qt))sin(pt), sin(qt)) for R = 2, p = 2, q = 3; for d >= 1 the returned
first-derivative vector is the exact componentwise derivative of that
position formula (in particular z-component q cos(qt)); and for d >= 2 the
returned second-derivative vector is the exact derivative of the first
derivative, each component a sum of two product-rule contributions. -/
theorem torusKnot_eval_correct (t : ℝ) :
    (∀ d : ℕ, (torusKnotEval t d).getD 0 0 =
      ((2 + Real.cos (3 * t)) * Real.cos (2 * t),
       (2 + Real.cos (3 * t)) * Real.sin (2 * t),
       Real.sin (3 * t))) ∧
    (∀ d : ℕ, 1 ≤ d → (torusKnotEval t d).getD 1 0 = tkVel t) ∧
    (∀ d : ℕ, 2 ≤ d → (torusKnotEval t d).getD 2 0 = tkAcc t) ∧
    (tkVel t).2.2 = 3 * Real.cos (3 * t) ∧
    HasDerivAt (fun u => (2 + Real.cos (3 * u)) * Real.cos (2 * u)) ((tkVel t).1) t ∧
    HasDerivAt (fun u => (2 + Real.cos (3 * u)) * Real.sin (2 * u)) ((tkVel t).2.1) t ∧
    HasDerivAt (fun u => Real.sin (3 * u)) ((tkVel t).2.2) t ∧
    HasDerivAt (fun u =>
      -2 * (2 + Real.cos (3 * u)) * Real.sin (2 * u) -
        3 * Real.sin (3 * u) * Real.cos (2 * u)) ((tkAcc t).1) t ∧
    HasDerivAt (fun u =>
      2 * (2 + Real.cos (3 * u)) * Real.cos (2 * u) -
        3 * Real.sin (3 * u) * Real.sin (2 * u)) ((tkAcc t).2.1) t ∧
    HasDerivAt (fun u => 3 * Real.cos (3 * u)) ((tkAcc t).2.2) t := by
  have h3t : HasDerivAt (fun u : ℝ => 3 * u) 3 t := by
    simpa using (hasDerivAt_id t).const_mul (3 : ℝ)
  have h2t : HasDerivAt (fun u : ℝ => 2 * u) 2 t := by
    simpa using (hasDerivAt_id t).const_mul (2 : ℝ)
  have hc3 := h3t.cos
  have hs3 := h3t.sin
  have hc2 := h2t.cos
  have hs2 := h2t.sin
  refine ⟨?_, ?_, ?_, rfl, ?_, ?_, ?_, ?_, ?_, ?_⟩
  · intro d
    unfold torusKnotEval
    split_ifs <;> rfl
  · intro d hd
    unfold torusKnotEval
    split_ifs <;> first | rfl | omega
  · intro d hd
    unfold torusKnotEval
    split_ifs <;> first | rfl | omega
  · have h := ((hasDerivAt_const t (2 : ℝ)).add hc3).mul hc2
    convert h using 1
    simp only [tkVel]
    ring
  · have h := ((hasDerivAt_const t (2 : ℝ)).add hc3).mul hs2
    convert h using 1
    simp only [tkVel]
    ring
  · convert hs3 using 1
    simp only [tkVel]
    ring
  · have h := ((((hasDerivAt_const t (2 : ℝ)).add hc3).const_mul (-2 : ℝ)).mul hs2).sub
      ((hs3.const_mul (3 : ℝ)).mul hc2)
    convert h using 1
    simp only [tkAcc]
    ring
  · have h := ((((hasDerivAt_const t (2 : ℝ)).add hc3).const_mul (2 : ℝ)).mul hc2).sub
      ((hs3.const_mul (3 : ℝ)).mul hs2)
    convert h using 1
    simp only [tkAcc]
    ring
  · have h := hc3.const_mul (3 : ℝ)
    convert h using 1
    simp only [tkAcc]
    ring

/-- Checked read of a knot-vector entry at a C++ int index: some value when
the index is within the vector's dimension, none for an out-of-bounds
access. -/
def knotAtOpt (knots : List ℚ) (i : ℤ) : Option ℚ :=
  if 0 ≤ i ∧ i < (knots.length : ℤ) then some (knots.getD i.toNat 0) else none

/-- Span-search loop of MyB_spline::leastSquaresFit over the candidate span
indices, with the C++ short-circuit evaluation order of
t >= knot[j] && t < knot[j+1]; the outer none is an out-of-bounds knot read,
the inner none means the loop fell through without finding a span. -/
def findSpanAux (knots : List ℚ) (t : ℚ) : List ℕ → Option (Option ℕ)
  | [] => some none
  | j :: rest => do
      let kj ← knotAtOpt knots (j : ℤ)
      if kj ≤ t then do
        let kj1 ← knotAtOpt knots ((j : ℤ) + 1)
        if t < kj1 then pure (some j) else findSpanAux knots t rest
      else findSpanAux knots t rest

/-- The span search of MyB_spline::leastSquaresFit: j runs over k = 2 up to
n - 1; when no span is found the boundary fallback span = n - 1 applies
(an int, -1 for n = 0). -/
def findSpanOpt (knots : List ℚ) (n : ℕ) (t : ℚ) : Option ℤ := do
  match ← findSpanAux knots t (List.range' 2 (n - 2)) with
  | some j => pure (j : ℤ)
  | none => pure ((n : ℤ) - 1)

/-- Inner r-loop of the basis-row recursion of MyB_spline::leastSquaresFit:
temp = N_i[r] / (knot[span+r+1] - knot[span+1-d+r]), N_i[r] = saved + right *
temp, saved = left * temp (division of rationals is total; the knot reads are
checked). -/
def basisInnerOpt (knots : List ℚ) (span : ℤ) (dd : ℕ) (lft rgt : ℚ) :
    ℕ → List ℚ → ℚ → Option (List ℚ × ℚ)
  | r, Ni, saved =>
    if h : r < dd then do
      let a ← knotAtOpt knots (span + (r : ℤ) + 1)
      let b ← knotAtOpt knots (span + 1 - (dd : ℤ) + (r : ℤ))
      let temp := Ni.getD r 0 / (a - b)
      basisInnerOpt knots span dd lft rgt (r + 1) (Ni.set r (saved + rgt * temp)) (lft * temp)
    else pure (Ni, saved)
  termination_by r _ _ => dd - r
  decreasing_by omega

/-- One d-iteration of the basis-row recursion: left = t - knot[span+1-d],
right = knot[span+d] - t, then the inner r-loop, then N_i[d] = saved. -/
def basisRowStepOpt (knots : List ℚ) (span : ℤ) (t : ℚ) (dd : ℕ) (Ni : List ℚ) :
    Option (List ℚ) := do
  let kl ← knotAtOpt knots (span + 1 - (dd : ℤ))
  let kr ← knotAtOpt knots (span + (dd : ℤ))
  let res ← basisInnerOpt knots span dd (t - kl) (kr - t) 0 Ni 0
  pure (res.1.set dd res.2)

/-- The basis-row computation of MyB_spline::leastSquaresFit for degree
k = 2: N_i starts as [1, 0, 0] and the d-loop runs for d = 1, 2. -/
def basisRowOpt (knots : List ℚ) (span : ℤ) (t : ℚ) : Option (List ℚ) := do
  let Ni1 ← basisRowStepOpt knots span t 1 [1, 0, 0]
  basisRowStepOpt knots span t 2 Ni1

/-- The store N[i][span - k + j] = N_i[j] for j = 0..k into a row of n
columns that starts all zero; a column index outside 0..n-1 is an
out-of-bounds matrix write, hence none. -/
def scatterRowOpt (n : ℕ) (span : ℤ) (vals : List ℚ) : Option (List ℚ) :=
  (List.range 3).foldlM
    (fun (row : List ℚ) (j : ℕ) =>
      if 0 ≤ span - 2 + (j : ℤ) ∧ span - 2 + (j : ℤ) < (n : ℤ) then
        some (row.set (span - 2 + (j : ℤ)).toNat (vals.getD j 0))
      else none)
    (List.replicate n 0)

/-- Row i of the basis matrix of MyB_spline::leastSquaresFit: parameter
t = i / (m - 1), span search, basis row, scatter into the n columns. -/
def fitRowOpt (knots : List ℚ) (m n i : ℕ) : Option (List ℚ) := do
  let t : ℚ := (i : ℚ) / ((m : ℚ) - 1)
  let span ← findSpanOpt knots n t
  let row ← basisRowOpt knots span t
  scatterRowOpt n span row

/-- The m-by-n basis matrix assembly of MyB_spline::leastSquaresFit (the
unused weights vector is omitted; the C++ code discards this matrix, as no
solve step follows). -/
def leastSquaresFitMatrix (knots : List ℚ) (m n : ℕ) : Option (List (List ℚ)) :=
  (List.range m).mapM (fitRowOpt knots m n)

/-- State of a MyB_spline object: control points and knot vector. -/
structure BSplineState where
  controlPoints : List Vec3
  knotVector : List ℚ

/-- The least-squares constructor MyB_spline(p, n): it calls leastSquaresFit
first, while _knotVector still has dimension 0, and generateKnotVector only
afterwards.  leastSquaresFit allocates _controlPoints to n entries
(default-valued, modelled as zero vectors) and never assigns them; the basis
matrix it builds against the empty knot vector is returned alongside so that
its out-of-bounds reads can be observed. -/
def MyBSplineFit (p : List Vec3) (n : ℕ) : BSplineState × Option (List (List ℚ)) :=
  ({ controlPoints := List.replicate n 0, knotVector := generateKnotVector n },
   leastSquaresFitMatrix [] p.length n)

-- Every read of an empty knot vector is out of bounds.
theorem knotAtOpt_nil (i : ℤ) : knotAtOpt [] i = none := by
  unfold knotAtOpt
  rw [if_neg]
  rintro ⟨h1, h2⟩
  simp only [List.length_nil, Nat.cast_zero] at h2
  omega

-- Every basis-matrix row computation against the empty knot vector fails.
theorem fitRowOpt_empty (m n i : ℕ) : fitRowOpt [] m n i = none := by
  unfold fitRowOpt findSpanOpt
  by_cases hn : 3 ≤ n
  · obtain ⟨k, hk⟩ : ∃ k, n - 2 = k + 1 := ⟨n - 3, by omega⟩
    rw [hk, List.range'_succ]
    unfold findSpanAux
    simp [knotAtOpt_nil]
  · have hk : n - 2 = 0 := by omega
    rw [hk]
    unfold findSpanAux
    simp [basisRowOpt, basisRowStepOpt, knotAtOpt_nil]

-- Hence the whole m-row matrix assembly fails as soon as there is one row.
theorem leastSquaresFitMatrix_empty (m n : ℕ) (hm : 1 ≤ m) :
    leastSquaresFitMatrix [] m n = none := by
  obtain ⟨m', rfl⟩ : ∃ m', m = m' + 1 := ⟨m - 1, by omega⟩
  unfold leastSquaresFitMatrix
  rw [List.range_succ_eq_map, List.mapM_cons]
  simp [fitRowOpt_empty]

/-- C10: in the least-squares constructor MyB_spline(p, n), leastSquaresFit
runs before generateKnotVector, so during basis-matrix assembly the knot
vector has dimension 0: every checked knot access returns none (the in-bounds
branch is unreachable), for every input with at least 2 samples the matrix
assembly fails at its first knot read, and the control points allocated by
the fit keep their default values, never receiving computed ones. -/
theorem fit_before_knots (p : List Vec3) (n : ℕ) (hm : 2 ≤ p.length) :
    (∀ i : ℤ, knotAtOpt ([] : List ℚ) i = none) ∧
    (MyBSplineFit p n).2 = none ∧
    (MyBSplineFit p n).1.controlPoints = List.replicate n 0 :=
  ⟨knotAtOpt_nil, leastSquaresFitMatrix_empty p.length n (by omega), rfl⟩

/-- Witness for C10 with two samples and n = 3. -/
theorem fit_before_knots_witness :
    (MyBSplineFit [((0 : ℚ), 0, 0), ((1 : ℚ), 0, 0)] 3).2 = none :=
  (fit_before_knots [((0 : ℚ), 0, 0), ((1 : ℚ), 0, 0)] 3 (by decide)).2.1

/-- A concrete direct-mode control polygon for the least-squares exactness
check of the specification. -/
def fitTestControlPoints : List Vec3 :=
  [((0 : ℚ), 0, 0), ((1 : ℚ), 1, 0), ((2 : ℚ), -1, 0), ((3 : ℚ), 0, 0)]

/-- Four samples lying exactly on the direct-mode quadratic B-spline built
from fitTestControlPoints, taken at parameters 0, 2/3, 4/3, 2 of its domain
[knot 2, knot (length - 3)] = [0, 2]. -/
def fitTestSamples : List Vec3 :=
  [pt (evalMyBSpline (generateKnotVector 4) fitTestControlPoints 0 0) 0,
   pt (evalMyBSpline (generateKnotVector 4) fitTestControlPoints (2/3) 0) 0,
   pt (evalMyBSpline (generateKnotVector 4) fitTestControlPoints (4/3) 0) 0,
   pt (evalMyBSpline (generateKnotVector 4) fitTestControlPoints 2 0) 0]

/-- C1 fails on the code: fitting the 4 exact samples with n = 4 does not
reproduce the control points.  The constructor runs leastSquaresFit against
the still-empty knot vector, whose basis-matrix assembly aborts at its first
knot read, and the control points allocated by the fit are never assigned, so
they remain default values rather than the solution of any least-squares
system. -/
theorem leastSquaresFit_not_exact :
    (MyBSplineFit fitTestSamples 4).2 = none ∧
    (MyBSplineFit fitTestSamples 4).1.controlPoints = List.replicate 4 0 ∧
    (MyBSplineFit fitTestSamples 4).1.controlPoints ≠ fitTestControlPoints := by
  refine ⟨leastSquaresFitMatrix_empty fitTestSamples.length 4 (by decide), rfl, ?_⟩
  show List.replicate 4 (0 : Vec3) ≠ fitTestControlPoints
  decide
